import Mathlib

/-!
# Potluck RSVP client — verification of the view model and sync adapter

Shallow embedding of the two client variants of the Potluck app:

* **Variant A** (`src/app/page.tsx`): rows have `id`, `name`, `category`,
  `dish`; local identity is the remembered display *name*; the roster is
  grouped by name; per-row edit/delete controls are gated on name equality;
  update/delete mutations filter by `id` **and** by the current `name`.
* **Variant B** (`src/unnamed/part_000`): rows additionally carry an
  `attending` flag; local identity is the remembered row *id* (`myId`);
  counts are restricted to attending rows; submission updates the single
  owned row once `myId` is set.

Pure derivations (`counts`, `totalAttending`, `groupedResponses`) are
translated directly from the corresponding TypeScript expressions; the
event handlers (`handleSubmit`, `handleDelete`) become functions from the
relevant client state (plus the backend's response, passed as an explicit
argument) to the successor state together with a record of the observable
effects (which mutation was called, whether an alert was raised, what was
written to local storage).
-/

/-- Response row of variant A (`src/app/page.tsx`'s `type Response`):
`id`, `name`, `category`, `dish`, all strings. -/
structure ResponseA where
  id : String
  name : String
  category : String
  dish : String
deriving DecidableEq, Repr

/-- Response row of variant B (`src/unnamed/part_000`'s `type Response`):
like variant A plus the `attending` boolean. -/
structure ResponseB where
  id : String
  name : String
  attending : Bool
  category : String
  dish : String
deriving DecidableEq, Repr

/-- The fixed closed category set offered by both UIs:
`['Main', 'Appetizer', 'Dessert', 'Drink']`. -/
def fixedCategories : List String := ["Main", "Appetizer", "Dessert", "Drink"]

/-- The four per-category counters displayed in the "Live Counts" panel. -/
structure Counts where
  main : Nat
  appetizer : Nat
  dessert : Nat
  drink : Nat
deriving DecidableEq, Repr

/-- Variant A `counts`: `responses.filter(r => r.category === c).length`
for each of the four categories (no attendance flag in this variant). -/
def countsA (rs : List ResponseA) : Counts where
  main := (rs.filter fun r => r.category = "Main").length
  appetizer := (rs.filter fun r => r.category = "Appetizer").length
  dessert := (rs.filter fun r => r.category = "Dessert").length
  drink := (rs.filter fun r => r.category = "Drink").length

/-- Variant B `counts`:
`responses.filter(r => r.attending && r.category === c).length`. -/
def countsB (rs : List ResponseB) : Counts where
  main := (rs.filter fun r => r.attending ∧ r.category = "Main").length
  appetizer := (rs.filter fun r => r.attending ∧ r.category = "Appetizer").length
  dessert := (rs.filter fun r => r.attending ∧ r.category = "Dessert").length
  drink := (rs.filter fun r => r.attending ∧ r.category = "Drink").length

/-- Variant B `totalAttending`: `responses.filter(r => r.attending).length`. -/
def totalAttendingB (rs : List ResponseB) : Nat :=
  (rs.filter fun r => r.attending).length

/-- Variant A `totalAttending`:
`responses.map(r => r.name).filter((v, i, a) => a.indexOf(v) === i).length`,
i.e. the length of the list of names kept at their first occurrence.
`List.enum` supplies the callback's index argument `i`; `a.indexOf(v)` is
`List.indexOf v a`. -/
def totalAttendingA (rs : List ResponseA) : Nat :=
  let a := rs.map fun r => r.name
  ((a.enum.filter fun p => a.indexOf p.2 = p.1).map Prod.snd).length

/-- The sum of the four displayed counters. -/
def Counts.total (c : Counts) : Nat := c.main + c.appetizer + c.dessert + c.drink

-- ### C1 helper lemmas

lemma countsA_total_eq (rs : List ResponseA) :
    (countsA rs).total = (rs.filter fun r => r.category ∈ fixedCategories).length := by
  induction rs with
  | nil => rfl
  | cons r t ih =>
    simp only [countsA, Counts.total, List.filter_cons, fixedCategories] at *
    by_cases h1 : r.category = "Main" <;>
      by_cases h2 : r.category = "Appetizer" <;>
        by_cases h3 : r.category = "Dessert" <;>
          by_cases h4 : r.category = "Drink" <;>
            simp_all <;> omega

lemma countsB_total_eq (rs : List ResponseB) :
    (countsB rs).total =
      (rs.filter fun r => r.attending ∧ r.category ∈ fixedCategories).length := by
  induction rs with
  | nil => rfl
  | cons r t ih =>
    simp only [countsB, Counts.total, List.filter_cons, fixedCategories] at *
    by_cases h0 : r.attending <;>
      by_cases h1 : r.category = "Main" <;>
        by_cases h2 : r.category = "Appetizer" <;>
          by_cases h3 : r.category = "Dessert" <;>
            by_cases h4 : r.category = "Drink" <;>
              simp_all <;> omega

lemma countsB_total_le (rs : List ResponseB) :
    (countsB rs).total ≤ totalAttendingB rs := by
  rw [countsB_total_eq, totalAttendingB, ← List.countP_eq_length_filter,
    ← List.countP_eq_length_filter]
  apply List.countP_mono_left
  intro r _ h
  simpa using (by simpa using h : r.attending ∧ r.category ∈ fixedCategories).1

/-- Claim C1. For every snapshot, the four per-category counts (with the
attendance filter in effect for the variant) sum to the number of rows
satisfying that filter whose category lies in the fixed four-element set;
hence rows with an out-of-set category land in no bucket, and the sum is
bounded by the number of qualifying rows (all rows in variant A, the
attending rows in variant B). -/
theorem counts_sum_partition (rsA : List ResponseA) (rsB : List ResponseB) :
    (countsA rsA).total = (rsA.filter fun r => r.category ∈ fixedCategories).length ∧
    (countsA rsA).total ≤ rsA.length ∧
    (countsB rsB).total =
      (rsB.filter fun r => r.attending ∧ r.category ∈ fixedCategories).length ∧
    (countsB rsB).total ≤ totalAttendingB rsB := by
  refine ⟨countsA_total_eq rsA, ?_, countsB_total_eq rsB, countsB_total_le rsB⟩
  rw [countsA_total_eq]
  exact List.length_filter_le _ _

-- ### C8 helper lemmas: the `(v, i, a) => a.indexOf(v) === i` dedup idiom

lemma firstOccurrences_nodup (a : List String) :
    ((a.enum.filter fun p => a.indexOf p.2 = p.1).map Prod.snd).Nodup := by
  have henum : a.enum.Nodup := (List.nodup_enum_map_fst a).of_map _
  refine List.Nodup.map_on ?_ (henum.filter _)
  intro p hp q hq hpq
  have hp' := List.of_mem_filter hp
  have hq' := List.of_mem_filter hq
  simp only [decide_eq_true_eq] at hp' hq'
  have : p.1 = q.1 := by rw [← hp', ← hq', hpq]
  exact Prod.ext this hpq

lemma firstOccurrences_mem (a : List String) (v : String) :
    v ∈ (a.enum.filter fun p => a.indexOf p.2 = p.1).map Prod.snd ↔ v ∈ a := by
  constructor
  · intro hv
    obtain ⟨p, hp, rfl⟩ := List.mem_map.1 hv
    exact List.getElem?_mem (List.mk_mem_enum_iff_getElem?.1 (List.mem_filter.1 hp).1)
  · intro hv
    refine List.mem_map.2 ⟨(a.indexOf v, v), List.mem_filter.2 ⟨?_, by simp⟩, rfl⟩
    rw [List.mk_mem_enum_iff_getElem?]
    exact List.getElem?_indexOf hv

lemma totalAttendingA_eq_card (rs : List ResponseA) :
    totalAttendingA rs = (rs.map fun r => r.name).toFinset.card := by
  unfold totalAttendingA
  rw [← List.toFinset_card_of_nodup (firstOccurrences_nodup (rs.map fun r => r.name))]
  congr 1
  ext v
  simp only [List.mem_toFinset]
  exact firstOccurrences_mem _ v

/-- Claim C8. The displayed total attendee count is, in variant B (no
per-person dedup), the number of rows with `attending = true`, and in
variant A (multiple dishes per person, no attendance flag), the number of
distinct `name` values among the rows; the two definitions are not
conflated within a variant. -/
theorem totalAttending_defs (rsA : List ResponseA) (rsB : List ResponseB) :
    totalAttendingA rsA = (rsA.map fun r => r.name).toFinset.card ∧
    totalAttendingB rsB = rsB.countP fun r => r.attending := by
  refine ⟨totalAttendingA_eq_card rsA, ?_⟩
  rw [totalAttendingB, ← List.countP_eq_length_filter]

-- ### C2: the grouped roster

/-- One step of the dedup-by-first-appearance fold. -/
def dedupStep (acc : List String) (v : String) : List String :=
  if v ∈ acc then acc else acc ++ [v]

/-- The distinct values of `l`, in order of first appearance: the key order
of a JS record built by inserting each value in list order. -/
def dedupFirst (l : List String) : List String := l.foldl dedupStep []

/-- One step of variant A's `responses.forEach` grouping loop
(`src/app/page.tsx`, `groupedResponses`): append `r` to the group keyed by
`r.name`, creating that group at the end if it is not present yet. -/
def groupAdd (acc : List (String × List ResponseA)) (r : ResponseA) :
    List (String × List ResponseA) :=
  match acc with
  | [] => [(r.name, [r])]
  | (n, rows) :: rest =>
      if n = r.name then (n, rows ++ [r]) :: rest
      else (n, rows) :: groupAdd rest r

/-- Variant A `groupedResponses`: the insertion-ordered record
`{name: Response[]}` built row by row, as an association list. -/
def groupedResponses (rs : List ResponseA) : List (String × List ResponseA) :=
  rs.foldl groupAdd []

lemma mem_foldl_dedupStep (l : List String) :
    ∀ acc v, v ∈ l.foldl dedupStep acc ↔ v ∈ acc ∨ v ∈ l := by
  induction l with
  | nil => simp
  | cons x t ih =>
    intro acc v
    rw [List.foldl_cons, ih]
    unfold dedupStep
    by_cases hx : x ∈ acc
    · simp only [if_pos hx, List.mem_cons]
      constructor
      · rintro (h | h)
        · exact Or.inl h
        · exact Or.inr (Or.inr h)
      · rintro (h | h | h)
        · exact Or.inl h
        · exact Or.inl (h ▸ hx)
        · exact Or.inr h
    · simp only [if_neg hx, List.mem_append, List.mem_singleton, List.mem_cons]
      tauto

lemma mem_dedupFirst {l : List String} {v : String} : v ∈ dedupFirst l ↔ v ∈ l := by
  rw [dedupFirst, mem_foldl_dedupStep]
  simp

lemma nodup_foldl_dedupStep (l : List String) :
    ∀ acc, acc.Nodup → (l.foldl dedupStep acc).Nodup := by
  induction l with
  | nil => intro acc h; simpa using h
  | cons x t ih =>
    intro acc h
    rw [List.foldl_cons]
    apply ih
    unfold dedupStep
    by_cases hx : x ∈ acc
    · simpa [hx] using h
    · simpa [hx, List.nodup_append] using h

lemma nodup_dedupFirst (l : List String) : (dedupFirst l).Nodup :=
  nodup_foldl_dedupStep l [] (by simp)

lemma dedupFirst_append_singleton (l : List String) (v : String) :
    dedupFirst (l ++ [v]) = dedupStep (dedupFirst l) v := by
  rw [dedupFirst, dedupFirst, List.foldl_append, List.foldl_cons, List.foldl_nil]

lemma groupAdd_map_of_not_mem (g : String → List ResponseA) (r : ResponseA) :
    ∀ keys : List String, r.name ∉ keys →
      groupAdd (keys.map fun n => (n, g n)) r =
        keys.map (fun n => (n, g n)) ++ [(r.name, [r])] := by
  intro keys
  induction keys with
  | nil => intro _; rfl
  | cons k t ih =>
    intro h
    have hk : k ≠ r.name := fun he => h (he ▸ List.mem_cons_self k t)
    simp only [List.map_cons, groupAdd, if_neg hk]
    rw [ih fun ht => h (List.mem_cons_of_mem _ ht)]
    rfl

lemma groupAdd_map_of_mem (g g' : String → List ResponseA) (r : ResponseA) :
    ∀ keys : List String, keys.Nodup → r.name ∈ keys →
      (∀ n, n ≠ r.name → g' n = g n) → g' r.name = g r.name ++ [r] →
      groupAdd (keys.map fun n => (n, g n)) r = keys.map fun n => (n, g' n) := by
  intro keys
  induction keys with
  | nil => intro _ h _ _; exact absurd h (List.not_mem_nil _)
  | cons k t ih =>
    intro hnd hmem hg hg'
    by_cases hk : k = r.name
    · subst hk
      simp only [List.map_cons, groupAdd]
      simp only [if_true]
      rw [← hg']
      congr 1
      apply List.map_congr_left
      intro n hn
      have hne : n ≠ r.name := fun he => (List.nodup_cons.1 hnd).1 (he ▸ hn)
      rw [hg n hne]
    · have hmem' : r.name ∈ t := by
        rcases List.mem_cons.1 hmem with he | ht
        · exact absurd he.symm hk
        · exact ht
      simp only [List.map_cons, groupAdd, if_neg hk]
      rw [ih (List.nodup_cons.1 hnd).2 hmem' hg hg', hg k hk]

lemma groupedResponses_append_singleton (rs : List ResponseA) (r : ResponseA) :
    groupedResponses (rs ++ [r]) = groupAdd (groupedResponses rs) r := by
  rw [groupedResponses, groupedResponses, List.foldl_append, List.foldl_cons, List.foldl_nil]

lemma groupedResponses_eq (rs : List ResponseA) :
    groupedResponses rs =
      (dedupFirst (rs.map fun r => r.name)).map
        fun n => (n, rs.filter fun r => r.name = n) := by
  induction rs using List.reverseRecOn with
  | nil => rfl
  | append_singleton t r ih =>
    rw [groupedResponses_append_singleton, ih, List.map_append, List.map_cons, List.map_nil,
      dedupFirst_append_singleton]
    by_cases h : r.name ∈ dedupFirst (t.map fun x => x.name)
    · rw [dedupStep, if_pos h]
      apply groupAdd_map_of_mem _ _ r _ (nodup_dedupFirst _) h
      · intro n hn
        rw [List.filter_append]
        simp [List.filter_cons, Ne.symm hn]
      · rw [List.filter_append]
        simp [List.filter_cons]
    · rw [dedupStep, if_neg h]
      have hnames : r.name ∉ t.map fun x => x.name := fun hc => h (mem_dedupFirst.2 hc)
      rw [groupAdd_map_of_not_mem _ r _ h, List.map_append, List.map_cons, List.map_nil]
      congr 1
      · apply List.map_congr_left
        intro n hn
        have hne : r.name ≠ n := fun he => h (he ▸ hn)
        rw [List.filter_append]
        simp [List.filter_cons, hne]
      · have ht : (t.filter fun x => x.name = r.name) = [] := by
          apply List.filter_eq_nil_iff.2
          intro x hx hc
          simp only [decide_eq_true_eq] at hc
          exact hnames (List.mem_map.2 ⟨x, hx, hc⟩)
        rw [List.filter_append, ht]
        simp [List.filter_cons]

lemma join_groupAdd (acc : List (String × List ResponseA)) (r : ResponseA) :
    ((groupAdd acc r).map Prod.snd).flatten.Perm ((acc.map Prod.snd).flatten ++ [r]) := by
  induction acc with
  | nil => simp [groupAdd]
  | cons p t ih =>
    obtain ⟨n, rows⟩ := p
    by_cases hn : n = r.name
    · simp only [groupAdd, if_pos hn, List.map_cons, List.flatten_cons]
      rw [List.append_assoc, List.append_assoc]
      exact (List.perm_append_comm).append_left rows
    · simp only [groupAdd, if_neg hn, List.map_cons, List.flatten_cons]
      refine (ih.append_left rows).trans ?_
      rw [← List.append_assoc]

lemma join_grouped_perm (rs : List ResponseA) :
    ((groupedResponses rs).map Prod.snd).flatten.Perm rs := by
  induction rs using List.reverseRecOn with
  | nil => exact List.Perm.nil
  | append_singleton t r ih =>
    rw [groupedResponses_append_singleton]
    exact (join_groupAdd _ r).trans (ih.append_right [r])

/-- Claim C2. The grouped roster partitions the snapshot: the group keys are
the distinct names in order of first appearance; each group's rows are
exactly the snapshot rows bearing that name, in order; the concatenation of
all groups is a permutation of the snapshot; a row belongs only to the
group keyed by its own name, and to exactly one group. -/
theorem grouped_roster_partition (rs : List ResponseA) :
    (groupedResponses rs).map Prod.fst = dedupFirst (rs.map fun r => r.name) ∧
    (∀ p ∈ groupedResponses rs, p.2 = rs.filter fun r => r.name = p.1) ∧
    ((groupedResponses rs).map Prod.snd).flatten.Perm rs ∧
    (∀ r ∈ rs, ∀ p ∈ groupedResponses rs, r ∈ p.2 → p.1 = r.name) ∧
    ∀ r ∈ rs, ((groupedResponses rs).countP fun p => r ∈ p.2) = 1 := by
  refine ⟨?_, ?_, join_grouped_perm rs, ?_, ?_⟩
  · rw [groupedResponses_eq, List.map_map]
    simp [Function.comp_def]
  · intro p hp
    rw [groupedResponses_eq] at hp
    obtain ⟨n, hn, rfl⟩ := List.mem_map.1 hp
    rfl
  · intro r hr p hp hrp
    rw [groupedResponses_eq] at hp
    obtain ⟨n, hn, rfl⟩ := List.mem_map.1 hp
    have := List.of_mem_filter hrp
    simp only [decide_eq_true_eq] at this
    exact this.symm
  · intro r hr
    rw [groupedResponses_eq, List.countP_map]
    have hcongr : ((dedupFirst (rs.map fun x => x.name)).countP
        ((fun p : String × List ResponseA => decide (r ∈ p.2)) ∘
          fun n => (n, rs.filter fun x => x.name = n))) =
        (dedupFirst (rs.map fun x => x.name)).countP (fun n => n == r.name) := by
      apply List.countP_congr
      intro n hn
      simp only [Function.comp_apply, decide_eq_true_eq, List.mem_filter, beq_iff_eq]
      constructor
      · rintro ⟨_, hname⟩
        simpa using hname.symm
      · intro he
        subst he
        exact ⟨hr, by simp⟩
    rw [hcongr]
    have hm : r.name ∈ dedupFirst (rs.map fun x => x.name) :=
      mem_dedupFirst.2 (List.mem_map.2 ⟨r, hr, rfl⟩)
    have := List.count_eq_one_of_mem (nodup_dedupFirst _) hm
    simpa [List.count_eq_countP] using this

-- ### Variant A: form state, submit, delete, ownership gating

/-- Variant A form state: the `useState` fields consulted and written by
`handleSubmit` in `src/app/page.tsx` (`name`, `category`, `dish`,
`editingId`). -/
structure FormA where
  name : String
  category : String
  dish : String
  editingId : Option String
deriving DecidableEq, Repr

/-- Observable outcome of one run of variant A's `handleSubmit`: the
successor form state, whether the validation alert fired, which mutation
was issued, and the value written to the `potluck_name` local-storage slot
(the name-based identity token), if any. -/
structure SubmitResultA where
  form : FormA
  alerted : Bool
  calledUpdate : Bool
  calledInsert : Bool
  storedName : Option String
deriving DecidableEq, Repr

/-- Variant A `handleSubmit`. `insertOk` reports whether the backend insert
returned the new row (`data && data[0]`); the update result is ignored by
the source, so it takes no argument. An empty name alerts and returns
early; otherwise the mutation chosen by `editingId` is issued and then the
handler unconditionally resets `category`/`dish`/`editingId`, keeping
`name` prefilled. -/
def handleSubmitA (st : FormA) (insertOk : Bool) : SubmitResultA :=
  if st.name = "" then
    { form := st, alerted := true, calledUpdate := false, calledInsert := false,
      storedName := none }
  else
    match st.editingId with
    | some _ =>
        { form := { st with category := "Main", dish := "", editingId := none },
          alerted := false, calledUpdate := true, calledInsert := false,
          storedName := none }
    | none =>
        { form := { st with category := "Main", dish := "", editingId := none },
          alerted := false, calledUpdate := false, calledInsert := true,
          storedName := if insertOk then some st.name else none }

/-- Effect on the remote table of variant A's update mutation
`update({category, dish}).eq('id', id).eq('name', nm)`: patch `category`
and `dish` on the rows matching both filters. -/
def updateOpA (table : List ResponseA) (id nm cat dsh : String) : List ResponseA :=
  table.map fun r =>
    if r.id = id ∧ r.name = nm then { r with category := cat, dish := dsh } else r

/-- Effect on the remote table of variant A's delete mutation
`delete().eq('id', id).eq('name', nm)`: drop the rows matching both
filters. -/
def deleteOpA (table : List ResponseA) (id nm : String) : List ResponseA :=
  table.filter fun r => ¬(r.id = id ∧ r.name = nm)

/-- Variant A `handleDelete`: behind the `confirm(...)` dialog, issue the
delete filtered by the clicked row's `id` and the *current* `name` field;
a declined dialog leaves the table untouched. -/
def handleDeleteA (table : List ResponseA) (currentName id : String) (confirmed : Bool) :
    List ResponseA :=
  if confirmed then deleteOpA table id currentName else table

/-- Variant A ownership gating: the `r.name === name` guard around the Edit
and Delete buttons of a roster row. -/
def showControlsA (currentName : String) (r : ResponseA) : Bool :=
  r.name == currentName

/-- Variant B roster rendering: each response is shown as the plain text
`{r.name} — {category (dish)}` (or `Not attending`) with no Edit/Delete
buttons at all, whatever the stored identity is. -/
def showControlsB (myId : Option String) (r : ResponseB) : Bool := false

-- ### Variant B: client state machine

/-- Variant B client state: the `useState` fields of `src/unnamed/part_000`. -/
structure ClientB where
  name : String
  attending : Bool
  category : String
  dish : String
  myId : Option String
deriving DecidableEq, Repr

/-- Variant B initial state: `useState('')`, `useState(true)`,
`useState('Main')`, `useState('')`, `useState<string | null>(null)`. -/
def initB : ClientB :=
  { name := "", attending := true, category := "Main", dish := "", myId := none }

/-- Observable outcome of one run of variant B's `handleSubmit`. -/
structure SubmitResultB where
  state : ClientB
  alerted : Bool
  updateTarget : Option String
  calledInsert : Bool
  storedWrite : Option String
deriving DecidableEq, Repr

/-- Variant B `handleSubmit`: alert on an empty name; when `myId` is set,
update row `myId` with the full field patch; otherwise insert and, when the
backend returns the new row (`insertedId`), adopt its id as `myId` and
write it to the `potluck_response_id` local-storage slot. -/
def handleSubmitB (st : ClientB) (insertedId : Option String) : SubmitResultB :=
  if st.name = "" then
    { state := st, alerted := true, updateTarget := none, calledInsert := false,
      storedWrite := none }
  else
    match st.myId with
    | some i =>
        { state := st, alerted := false, updateTarget := some i, calledInsert := false,
          storedWrite := none }
    | none =>
        match insertedId with
        | some newId =>
            { state := { st with myId := some newId }, alerted := false,
              updateTarget := none, calledInsert := true, storedWrite := some newId }
        | none =>
            { state := st, alerted := false, updateTarget := none, calledInsert := true,
              storedWrite := none }

/-- An input processed by a variant B client after startup: a submission
(with the backend's insert result) or one of the field setters. -/
inductive EventB where
  | submit (insertedId : Option String)
  | setNameField (s : String)
  | setAttendingFlag (b : Bool)
  | setCategoryField (s : String)
  | setDishField (s : String)
deriving DecidableEq, Repr

/-- One event step: successor state plus the local-storage write (if any). -/
def stepB (st : ClientB) (e : EventB) : ClientB × Option String :=
  match e with
  | .submit ins => ((handleSubmitB st ins).state, (handleSubmitB st ins).storedWrite)
  | .setNameField s => ({ st with name := s }, none)
  | .setAttendingFlag b => ({ st with attending := b }, none)
  | .setCategoryField s => ({ st with category := s }, none)
  | .setDishField s => ({ st with dish := s }, none)

/-- Run a sequence of events, returning the final state and the number of
local-storage writes performed along the way. -/
def runB (st : ClientB) (es : List EventB) : ClientB × Nat :=
  match es with
  | [] => (st, 0)
  | e :: t =>
      let r := stepB st e
      let rest := runB r.1 t
      (rest.1, (if r.2.isSome then 1 else 0) + rest.2)

/-- Variant B startup (the `useEffect` that reads `potluck_response_id`):
when a stored id exists, adopt it as `myId` and, once the row it names is
fetched, prefill the form from that row (`r.category || 'Main'` falls back
from the falsy empty string; `r.dish || ''` is the identity on strings). -/
def startupB (stored : Option String) (fetched : Option ResponseB) : ClientB :=
  match stored with
  | none => initB
  | some sid =>
      let st := { initB with myId := some sid }
      match fetched with
      | some r =>
          { st with
            name := r.name
            attending := r.attending
            category := if r.category = "" then "Main" else r.category
            dish := r.dish }
      | none => st

-- ### C3, C7, C5: submission behaviour

/-- Claim C3. On submit with a non-empty name: with `editingId` set the
update mutation (and not the insert) is issued; otherwise the insert is
issued and, when it succeeds, the submitted name is persisted as the local
identity while `editingId` is cleared, `category`/`dish` return to their
defaults, and the name field is kept. -/
theorem submitA_branches (st : FormA) (insertOk : Bool) (h : st.name ≠ "") :
    (st.editingId.isSome →
      (handleSubmitA st insertOk).calledUpdate = true ∧
      (handleSubmitA st insertOk).calledInsert = false) ∧
    (st.editingId = none →
      (handleSubmitA st insertOk).calledInsert = true ∧
      (handleSubmitA st insertOk).calledUpdate = false ∧
      (insertOk = true → (handleSubmitA st insertOk).storedName = some st.name) ∧
      (handleSubmitA st insertOk).form.editingId = none ∧
      (handleSubmitA st insertOk).form.category = "Main" ∧
      (handleSubmitA st insertOk).form.dish = "" ∧
      (handleSubmitA st insertOk).form.name = st.name) := by
  unfold handleSubmitA
  rw [if_neg h]
  cases he : st.editingId <;> simp [he]

/-- Witness for `submitA_branches` at a concrete fresh-mode form. -/
theorem submitA_branches_model :
    (handleSubmitA ⟨"Ada", "Dessert", "Pie", none⟩ true).calledInsert = true ∧
    (handleSubmitA ⟨"Ada", "Dessert", "Pie", none⟩ true).storedName = some "Ada" ∧
    (handleSubmitA ⟨"Ada", "Dessert", "Pie", none⟩ true).form.name = "Ada" := by
  have h := submitA_branches ⟨"Ada", "Dessert", "Pie", none⟩ true (by decide)
  obtain ⟨-, h2⟩ := h
  obtain ⟨hi, -, hs, -, -, -, hn⟩ := h2 rfl
  exact ⟨hi, hs rfl, hn⟩

/-- Claim C7. An empty name blocks submission locally in both variants: the
alert fires, no insert or update is issued, and the state is untouched;
with a non-empty name no alert fires and a mutation is issued, whatever
`category`, `dish` or `attending` hold (no other field is validated). -/
theorem emptyName_blocks (stA : FormA) (insertOkA : Bool) (stB : ClientB)
    (insB : Option String) :
    (stA.name = "" →
      (handleSubmitA stA insertOkA).alerted = true ∧
      (handleSubmitA stA insertOkA).calledInsert = false ∧
      (handleSubmitA stA insertOkA).calledUpdate = false ∧
      (handleSubmitA stA insertOkA).form = stA) ∧
    (stA.name ≠ "" →
      (handleSubmitA stA insertOkA).alerted = false ∧
      ((handleSubmitA stA insertOkA).calledInsert = true ∨
        (handleSubmitA stA insertOkA).calledUpdate = true)) ∧
    (stB.name = "" →
      (handleSubmitB stB insB).alerted = true ∧
      (handleSubmitB stB insB).calledInsert = false ∧
      (handleSubmitB stB insB).updateTarget = none ∧
      (handleSubmitB stB insB).state = stB) ∧
    (stB.name ≠ "" →
      (handleSubmitB stB insB).alerted = false ∧
      ((handleSubmitB stB insB).calledInsert = true ∨
        (handleSubmitB stB insB).updateTarget.isSome)) := by
  refine ⟨?_, ?_, ?_, ?_⟩
  · intro h
    simp [handleSubmitA, h]
  · intro h
    unfold handleSubmitA
    rw [if_neg h]
    cases st : stA.editingId <;> simp
  · intro h
    simp [handleSubmitB, h]
  · intro h
    unfold handleSubmitB
    rw [if_neg h]
    cases hm : stB.myId
    · cases insB <;> simp
    · simp

/-- Witness for `emptyName_blocks`: an empty-name variant A submit is
blocked; a nonempty-name variant B submit with arbitrary dish data is not. -/
theorem emptyName_blocks_model :
    (handleSubmitA ⟨"", "Drink", "x", none⟩ true).alerted = true ∧
    (handleSubmitA ⟨"", "Drink", "x", none⟩ true).calledInsert = false ∧
    (handleSubmitB ⟨"Ada", false, "weird", "", none⟩ none).alerted = false := by
  have h1 := emptyName_blocks ⟨"", "Drink", "x", none⟩ true
    ⟨"Ada", false, "weird", "", none⟩ none
  exact ⟨(h1.1 rfl).1, (h1.1 rfl).2.1, (h1.2.2.2 (by decide)).1⟩

/-- Claim C5 fails on the code. Counterexample: a submit whose insert
mutation fails (`insertOk = false`) raises no alert, yet the form state is
changed: the category chosen before the submit is reset to `Main`. -/
theorem mutation_failure_cex :
    (handleSubmitA ⟨"Ada", "Dessert", "Pie", none⟩ false).alerted = false ∧
    (handleSubmitA ⟨"Ada", "Dessert", "Pie", none⟩ false).form ≠
      ⟨"Ada", "Dessert", "Pie", none⟩ ∧
    (handleSubmitA ⟨"Ada", "Dessert", "Pie", none⟩ false).form.category = "Main" := by
  decide

/-- Claim C5, amended. Mutation failures are silent: no alert is ever raised
past the name validation. Variant A resets `category`/`dish`/`editingId`
(keeping the name) whether or not the mutation succeeded, and stores no
identity on a failed insert; variant B leaves its state unchanged and
writes nothing on a failed insert. -/
theorem mutation_failure_silent (st : FormA) (stB : ClientB)
    (h : st.name ≠ "") (hB : stB.name ≠ "") :
    (handleSubmitA st false).alerted = false ∧
    (handleSubmitA st false).form.name = st.name ∧
    (handleSubmitA st false).form.category = "Main" ∧
    (handleSubmitA st false).form.dish = "" ∧
    (handleSubmitA st false).form.editingId = none ∧
    (handleSubmitA st false).storedName = none ∧
    (handleSubmitB stB none).alerted = false ∧
    (handleSubmitB stB none).state = stB ∧
    (handleSubmitB stB none).storedWrite = none := by
  constructor
  · unfold handleSubmitA
    rw [if_neg h]
    cases st.editingId <;> rfl
  refine ⟨?_, ?_, ?_, ?_, ?_, ?_, ?_, ?_⟩ <;>
    first
    | (unfold handleSubmitA
       rw [if_neg h]
       cases st.editingId <;> rfl)
    | (unfold handleSubmitB
       rw [if_neg hB]
       cases stB.myId <;> rfl)

/-- Witness for `mutation_failure_silent` at concrete states. -/
theorem mutation_failure_silent_model :
    (handleSubmitA ⟨"Ada", "Dessert", "Pie", some "3"⟩ false).alerted = false ∧
    (handleSubmitB ⟨"Bob", true, "Main", "", none⟩ none).state =
      ⟨"Bob", true, "Main", "", none⟩ := by
  have h := mutation_failure_silent ⟨"Ada", "Dessert", "Pie", some "3"⟩
    ⟨"Bob", true, "Main", "", none⟩ (by decide) (by decide)
  exact ⟨h.1, h.2.2.2.2.2.2.2.1⟩

-- ### C4: ownership gating; C6, C9: scoped mutations

/-- Claim C4 fails on the code. Counterexample for the row-id scheme: a
snapshot row whose id equals the stored identity still gets no edit/delete
controls, because the variant B roster renders no per-row controls at all. -/
theorem controls_rowid_cex :
    showControlsB (some "7") ⟨"7", "Ada", true, "Main", "Pie"⟩ = false ∧
    (⟨"7", "Ada", true, "Main", "Pie"⟩ : ResponseB).id = "7" := by
  decide

/-- Claim C4, amended. In the name identity scheme, edit/delete controls
appear on exactly those rows whose name equals the current name field
(possibly zero, one, or many rows); the row-id variant renders no per-row
edit/delete controls on any row. -/
theorem controls_gating (nm : String) (r : ResponseA) (mid : Option String)
    (rB : ResponseB) (rs : List ResponseA) :
    (showControlsA nm r = true ↔ r.name = nm) ∧
    (rs.filter (showControlsA nm) = rs.filter fun x => x.name = nm) ∧
    showControlsB mid rB = false := by
  refine ⟨by simp [showControlsA], ?_, rfl⟩
  apply List.filter_congr
  intro x _
  by_cases hx : x.name = nm <;> simp [showControlsA, hx]

/-- Claim C6 fails on the code. Counterexample: with the name field holding
`Ada`, a confirmed delete of row id `1` — whose name is `Bob` — removes
nothing, because the mutation also filters by the current name; the claim
required the row with the given id to be deleted. -/
theorem delete_by_id_cex :
    handleDeleteA [⟨"1", "Bob", "Main", "Stew"⟩] "Ada" "1" true =
      [⟨"1", "Bob", "Main", "Stew"⟩] ∧
    (⟨"1", "Bob", "Main", "Stew"⟩ : ResponseA) ∈
      handleDeleteA [⟨"1", "Bob", "Main", "Stew"⟩] "Ada" "1" true := by
  decide

/-- Claim C6, amended. A confirmed remove deletes exactly those rows whose
id equals the given identifier *and* whose name equals the current name
field — so at most the one row with that id, and only when its name
matches; no other row is affected, nothing is added, and a declined
confirmation leaves the table untouched. -/
theorem delete_scoped (table : List ResponseA) (nm id : String) :
    handleDeleteA table nm id false = table ∧
    (handleDeleteA table nm id true).Sublist table ∧
    ∀ r ∈ table,
      (r ∈ handleDeleteA table nm id true ↔ ¬(r.id = id ∧ r.name = nm)) := by
  refine ⟨rfl, List.filter_sublist table, ?_⟩
  intro r hr
  unfold handleDeleteA deleteOpA
  rw [if_pos rfl]
  constructor
  · intro hmem
    have h2 := List.of_mem_filter hmem
    exact of_decide_eq_true h2
  · intro hne
    exact List.mem_filter.2 ⟨hr, decide_eq_true hne⟩

/-- Witness for `delete_scoped` at a concrete table: the matching row is
removed, the non-matching row survives. -/
theorem delete_scoped_model :
    (⟨"2", "Bob", "Drink", ""⟩ : ResponseA) ∈
      handleDeleteA [⟨"1", "Ada", "Main", "Pie"⟩, ⟨"2", "Bob", "Drink", ""⟩] "Ada" "1" true ∧
    (⟨"1", "Ada", "Main", "Pie"⟩ : ResponseA) ∉
      handleDeleteA [⟨"1", "Ada", "Main", "Pie"⟩, ⟨"2", "Bob", "Drink", ""⟩] "Ada" "1" true := by
  have h := delete_scoped [⟨"1", "Ada", "Main", "Pie"⟩, ⟨"2", "Bob", "Drink", ""⟩] "Ada" "1"
  constructor
  · exact (h.2.2 ⟨"2", "Bob", "Drink", ""⟩ (by decide)).2 (by decide)
  · intro hmem
    exact absurd ((h.2.2 ⟨"1", "Ada", "Main", "Pie"⟩ (by decide)).1 hmem) (by decide)

/-- Claim C9. Both variant A mutations filter by the current name field on
top of the row id: whenever every row carrying the targeted id has a name
different from the current name field, the update and the delete leave the
remote table exactly unchanged. -/
theorem name_filter_frame (table : List ResponseA) (id nm cat dsh : String)
    (h : ∀ r ∈ table, r.id = id → r.name ≠ nm) :
    updateOpA table id nm cat dsh = table ∧ deleteOpA table id nm = table := by
  constructor
  · unfold updateOpA
    conv_rhs => rw [← List.map_id table]
    apply List.map_congr_left
    intro r hr
    rw [if_neg]
    · rfl
    · rintro ⟨hid, hname⟩
      exact h r hr hid hname
  · unfold deleteOpA
    apply List.filter_eq_self.2
    intro r hr
    exact decide_eq_true fun hc => h r hr hc.1 hc.2

/-- Witness for `name_filter_frame`: the id matches but the name differs,
and both mutations are no-ops. -/
theorem name_filter_frame_model :
    updateOpA [⟨"1", "Bob", "Main", "Stew"⟩] "1" "Ada" "Drink" "Juice" =
      [⟨"1", "Bob", "Main", "Stew"⟩] ∧
    deleteOpA [⟨"1", "Bob", "Main", "Stew"⟩] "1" "Ada" =
      [⟨"1", "Bob", "Main", "Stew"⟩] :=
  name_filter_frame [⟨"1", "Bob", "Main", "Stew"⟩] "1" "Ada" "Drink" "Juice"
    (by decide)

-- ### C10: stability of the row-id identity

lemma stepB_of_some (st : ClientB) (x : String) (e : EventB) (h : st.myId = some x) :
    (stepB st e).1.myId = some x ∧ (stepB st e).2 = none := by
  cases e with
  | submit ins =>
    simp only [stepB, handleSubmitB]
    split
    · exact ⟨h, rfl⟩
    · rw [h]
      exact ⟨h, rfl⟩
  | setNameField s => exact ⟨h, rfl⟩
  | setAttendingFlag b => exact ⟨h, rfl⟩
  | setCategoryField s => exact ⟨h, rfl⟩
  | setDishField s => exact ⟨h, rfl⟩

lemma runB_of_some (es : List EventB) :
    ∀ st x, st.myId = some x → (runB st es).1.myId = some x ∧ (runB st es).2 = 0 := by
  induction es with
  | nil => exact fun st x h => ⟨h, rfl⟩
  | cons e t ih =>
    intro st x h
    obtain ⟨h1, h2⟩ := stepB_of_some st x e h
    obtain ⟨h3, h4⟩ := ih _ x h1
    simp only [runB]
    rw [h2, h4]
    exact ⟨h3, rfl⟩

lemma runB_writes_le_one (es : List EventB) :
    ∀ st, st.myId = none → (runB st es).2 ≤ 1 := by
  induction es with
  | nil => intro st _; simp [runB]
  | cons e t ih =>
    intro st h
    simp only [runB]
    cases e with
    | submit ins =>
      by_cases hn : st.name = ""
      · have hs : stepB st (.submit ins) = (st, none) := by
          simp [stepB, handleSubmitB, hn]
        rw [hs]
        simpa using ih st h
      · cases ins with
        | none =>
          have hs : stepB st (.submit none) = (st, none) := by
            simp [stepB, handleSubmitB, hn, h]
          rw [hs]
          simpa using ih st h
        | some newId =>
          have hs : stepB st (.submit (some newId)) =
              ({ st with myId := some newId }, some newId) := by
            simp [stepB, handleSubmitB, hn, h]
          rw [hs]
          have := (runB_of_some t { st with myId := some newId } newId rfl).2
          simp [this]
    | setNameField s =>
      have hs : stepB st (.setNameField s) = ({ st with name := s }, none) := rfl
      rw [hs]
      simpa using ih { st with name := s } h
    | setAttendingFlag b =>
      have hs : stepB st (.setAttendingFlag b) = ({ st with attending := b }, none) := rfl
      rw [hs]
      simpa using ih { st with attending := b } h
    | setCategoryField s =>
      have hs : stepB st (.setCategoryField s) = ({ st with category := s }, none) := rfl
      rw [hs]
      simpa using ih { st with category := s } h
    | setDishField s =>
      have hs : stepB st (.setDishField s) = ({ st with dish := s }, none) := rfl
      rw [hs]
      simpa using ih { st with dish := s } h

/-- Claim C10. Once `myId` holds an id — from startup or a first successful
insert — no later event changes or clears it and no later step writes to
local storage; every submit from such a state issues no insert, and (when
the name passes validation) targets that very row with the update; from
any startup state, a whole event trace writes the stored identifier at most
once. -/
theorem rowid_identity_stable (st : ClientB) (x : String) (es : List EventB)
    (h : st.myId = some x) :
    (runB st es).1.myId = some x ∧
    (runB st es).2 = 0 ∧
    (∀ ins, (handleSubmitB st ins).calledInsert = false) ∧
    (st.name ≠ "" → ∀ ins, (handleSubmitB st ins).updateTarget = some x) ∧
    ∀ stored fetched es2, (runB (startupB stored fetched) es2).2 ≤ 1 := by
  obtain ⟨h1, h2⟩ := runB_of_some es st x h
  refine ⟨h1, h2, ?_, ?_, ?_⟩
  · intro ins
    unfold handleSubmitB
    split
    · rfl
    · rw [h]
  · intro hn ins
    unfold handleSubmitB
    rw [if_neg hn, h]
  · intro stored fetched es2
    cases stored with
    | none => exact runB_writes_le_one es2 initB rfl
    | some sid =>
      have : (startupB (some sid) fetched).myId = some sid := by
        cases fetched <;> rfl
      exact le_trans (le_of_eq (runB_of_some es2 _ sid this).2) (by omega)

/-- Witness for `rowid_identity_stable`: a client owning row `7` processes
an edit-and-resubmit trace; the identity survives, nothing new is stored,
and the submit targets row `7`. -/
theorem rowid_identity_stable_model :
    (runB ⟨"Ada", true, "Main", "Pie", some "7"⟩
        [.setCategoryField "Dessert", .submit none]).1.myId = some "7" ∧
    (runB ⟨"Ada", true, "Main", "Pie", some "7"⟩
        [.setCategoryField "Dessert", .submit none]).2 = 0 ∧
    (handleSubmitB ⟨"Ada", true, "Main", "Pie", some "7"⟩ none).updateTarget = some "7" := by
  have h := rowid_identity_stable ⟨"Ada", true, "Main", "Pie", some "7"⟩ "7"
    [.setCategoryField "Dessert", .submit none] rfl
  exact ⟨h.1, h.2.1, h.2.2.2.1 (by decide) none⟩

/-- Witness for `grouped_roster_partition` on a concrete three-row
snapshot: the second `Ada` row sits in exactly one group, and the group
keys come out in first-appearance order. -/
theorem grouped_roster_partition_model :
    ((groupedResponses [⟨"1", "Ada", "Main", "Pie"⟩, ⟨"2", "Bob", "Drink", ""⟩,
        ⟨"3", "Ada", "Dessert", "Cake"⟩]).countP
      fun p => (⟨"3", "Ada", "Dessert", "Cake"⟩ : ResponseA) ∈ p.2) = 1 := by
  have h := grouped_roster_partition [⟨"1", "Ada", "Main", "Pie"⟩,
    ⟨"2", "Bob", "Drink", ""⟩, ⟨"3", "Ada", "Dessert", "Cake"⟩]
  exact h.2.2.2.2 ⟨"3", "Ada", "Dessert", "Cake"⟩ (by decide)
